import Mathlib

/-!
Verification of the `blockchain` package of BlockchainClient
(src/blockchain/client.go) against its design specification.

The development shallowly embeds the two components of the core:

* the hex-integer codec: the encoder `"0x" + strconv.FormatUint(n, 16)`
  used by `GetBlockByNumber` (client.go:141) and the decoder inside
  `Uint64Hex.UnmarshalJSON` / `GetBlockNumber`
  (`strings.HasPrefix(s, "0x")` followed by
  `strconv.ParseUint(s[2:], 16, 64)`, client.go:128-132 and 163-169);

* the RPC client: request construction, HTTP status handling, the
  JSON-RPC response envelope, result decoding, and the two public
  operations `GetBlockNumber` and `GetBlockByNumber`.

Machine integers are modelled as `Nat` with explicit `2 ^ 64` bounds
where Go's `uint64` overflow / `ParseUint` range checks matter.
-/

/-- The lowercase hexadecimal digit character for a value `d < 16`,
as produced by Go's `strconv.FormatUint(_, 16)` (digits `0-9a-f`). -/
def hexDigitChar (d : Nat) : Char :=
  if d < 10 then Char.ofNat (48 + d) else Char.ofNat (87 + d)

/-- The base-16 digit list of `n`, most significant digit first, as
produced by `strconv.FormatUint(n, 16)` (client.go:141): repeated
division by 16, no leading zeros, `0` is the single digit `'0'`. -/
def toHexDigits (n : Nat) : List Char :=
  if _h : n < 16 then [hexDigitChar n]
  else toHexDigits (n / 16) ++ [hexDigitChar (n % 16)]
decreasing_by exact Nat.div_lt_self (by omega) (by omega)

/-- Go `strconv.FormatUint(n, 16)` (client.go:141). -/
def formatUintHex (n : Nat) : String :=
  String.mk (toHexDigits n)

/-- The encoder used by `GetBlockByNumber`:
`hexNum := "0x" + strconv.FormatUint(number, 16)` (client.go:141). -/
def encodeHex (n : Nat) : String :=
  "0x" ++ formatUintHex n

/-- The numeric value of one hexadecimal digit character, accepting
both cases, exactly the digits `strconv.ParseUint(_, 16, _)` accepts
(`0-9`, `a-f`, `A-F`); `none` on any other character. -/
def hexCharVal (c : Char) : Option Nat :=
  if '0' ≤ c ∧ c ≤ '9' then some (c.toNat - 48)
  else if 'a' ≤ c ∧ c ≤ 'f' then some (c.toNat - 87)
  else if 'A' ≤ c ∧ c ≤ 'F' then some (c.toNat - 55)
  else none

/-- The accumulator loop of Go `strconv.ParseUint(s, 16, 64)`: consume
digits left to right, failing on a non-hex character or as soon as the
accumulated value would exceed `2 ^ 64 - 1` (Go's cutoff/maxVal range
check for `bitSize = 64`). -/
def parseHexAux (acc : Nat) : List Char → Option Nat
  | [] => some acc
  | c :: cs =>
    match hexCharVal c with
    | none => none
    | some d =>
      if acc * 16 + d < 2 ^ 64 then parseHexAux (acc * 16 + d) cs else none

/-- Go `strconv.ParseUint(s, 16, 64)` on the character list of `s`:
the empty string is a syntax error, otherwise the digit loop runs. -/
def parseUintHexList (l : List Char) : Option Nat :=
  match l with
  | [] => none
  | _ => parseHexAux 0 l

/-- Go `strings.HasPrefix(s, "0x")` (client.go:128 and 163). -/
def hasPrefix0x (s : String) : Bool :=
  match s.data with
  | '0' :: 'x' :: _ => true
  | _ => false

/-- Go `s[2:]` under the knowledge that `s` starts with `"0x"`
(client.go:131 and 165); the empty list when the prefix is absent. -/
def hexSuffix (s : String) : List Char :=
  match s.data with
  | '0' :: 'x' :: rest => rest
  | _ => []

/-- The hex-string decoder of `Uint64Hex.UnmarshalJSON`
(client.go:163-169): `len(hexStr) > 1 && strings.HasPrefix(hexStr, "0x")`
followed by `strconv.ParseUint(hexStr[2:], 16, 64)`.  The Go length
guard `len(hexStr) > 1` is implied by the `"0x"` prefix (a string with
that prefix has byte length at least 2), so the condition reduces to
the prefix test. -/
def uint64HexDecode (s : String) : Option Nat :=
  if hasPrefix0x s then parseUintHexList (hexSuffix s) else none

/-- `l` is a nonempty string of hexadecimal digit characters. -/
def isHexDigits (l : List Char) : Bool :=
  !l.isEmpty && l.all fun c => (hexCharVal c).isSome

/-- The place value of a hexadecimal digit list appended to an
accumulated high part (Horner evaluation, unbounded). -/
def hexValueAux (acc : Nat) : List Char → Nat
  | [] => acc
  | c :: cs => hexValueAux (acc * 16 + (hexCharVal c).getD 0) cs

/-- The numeric value denoted by a hexadecimal digit list. -/
def hexValue (l : List Char) : Nat :=
  hexValueAux 0 l


/-! ### The JSON-RPC client (client.go:75-152)

JSON text parsing (`encoding/json` on raw bytes) is outside the model:
the network layer hands the client a status code, a raw body, and the
outcome of unmarshaling that body as a response envelope.  JSON values
below the envelope are modelled concretely by `Json`, and the struct
decoders (`Block`, `Transaction`, result strings) follow Go
`encoding/json` field-by-field decoding. -/

/-- A JSON value, as far as this client inspects one. -/
inductive Json where
  | null
  | bool (b : Bool)
  | num (n : Int)
  | str (s : String)
  | arr (elems : List Json)
  | obj (fields : List (String × Json))

/-- `rpcError` (client.go:26-29). -/
structure RpcErrorObj where
  code : Int
  message : String

/-- `rpcResponse` (client.go:32-36).  `Result` is a `json.RawMessage`:
`none` models the nil raw message left by an absent `result` field,
while a JSON `null` in the body yields `some Json.null`. -/
structure RpcEnvelope where
  result : Option Json
  error : Option RpcErrorObj
  id : Int

/-- The distinct error returns of the client, one constructor per
`fmt.Errorf` site in client.go (each carries the context the format
string interpolates). -/
inductive ClientError where
  | network (msg : String)
  | transport (status : Nat) (body : String)
  | decodeEnvelope (msg : String)
  | rpc (code : Int) (message : String)
  | decodeResult (msg : String)
  | invalidFormat (s : String)
  | parseFailure (s : String)
  | notFound (number : Nat)
deriving DecidableEq

/-- The error is the non-2xx-status error of `rpcCall` (client.go:100-102). -/
def ClientError.isTransport : ClientError → Bool
  | .transport _ _ => true
  | _ => false

/-- The error reports a well-formed JSON-RPC `error` object
(client.go:108-110). -/
def ClientError.isRemoteRpc : ClientError → Bool
  | .rpc _ _ => true
  | _ => false

/-- The error is a protocol-violation/decode failure: the body did not
parse as an envelope, or the `result` payload did not decode
(client.go:104-106 and 112-116). -/
def ClientError.isDecodeOrProtocol : ClientError → Bool
  | .decodeEnvelope _ => true
  | .decodeResult _ => true
  | _ => false

/-- The error is the block-not-found error of `GetBlockByNumber`
(client.go:148-149). -/
def ClientError.isNotFound : ClientError → Bool
  | .notFound _ => true
  | _ => false

/-- What the network hands back for one HTTP POST: either a failure of
`httpClient.Post`/`io.ReadAll` (client.go:91-98), or a status code, the
raw body, and the outcome of `json.Unmarshal(body, &rpcResp)`
(client.go:104-106), `none` when the body is not a valid envelope. -/
inductive NetworkResult where
  | netError (msg : String)
  | httpResponse (status : Nat) (body : String) (envelope : Option RpcEnvelope)

/-- The request map built by `rpcCall` (client.go:76-83):
`{"jsonrpc": "2.0", "id": 1, "method": method}`, with a `"params"` key
only when `params != nil`. -/
structure RpcRequest where
  jsonrpc : String
  id : Int
  method : String
  params : Option (List Json)

/-- Request construction in `rpcCall` (client.go:76-83). -/
def buildRequest (method : String) (params : Option (List Json)) : RpcRequest :=
  { jsonrpc := "2.0", id := 1, method := method, params := params }

/-- Go `json.Unmarshal(data, &s)` for a `string` target whose prior
value is `prev`: a JSON string replaces it, JSON `null` is a no-op
(keeps `prev`), any other JSON value is a type error. -/
def jsonToStringWith (prev : String) : Json → Option String
  | .str s => some s
  | .null => some prev
  | _ => none

/-- Go `json.Unmarshal(data, &s)` for a zero-valued `string` target,
as in `GetBlockNumber`'s `var resultHex string` (client.go:123) and
`Uint64Hex.UnmarshalJSON`'s `var hexStr string` (client.go:158). -/
def jsonToString : Json → Option String :=
  jsonToStringWith ""

/-- `Uint64Hex.UnmarshalJSON` (client.go:157-171): unmarshal the raw
value into a string, then run the hex decoder on it. -/
def uint64HexUnmarshalJSON (j : Json) : Option Nat :=
  match jsonToString j with
  | none => none
  | some hexStr => uint64HexDecode hexStr

/-- `Transaction` (client.go:52-57).  Go's `From`/`To` fields are named
`fromAddr`/`toAddr` here because `from` is a Lean keyword. -/
structure Transaction where
  hash : String
  fromAddr : String
  toAddr : String
  value : String
deriving DecidableEq

/-- The zero value a fresh `Transaction` decodes into. -/
def zeroTransaction : Transaction :=
  { hash := "", fromAddr := "", toAddr := "", value := "" }

/-- One key of a transaction JSON object applied to the partially
decoded `Transaction`: Go `encoding/json` struct decoding, where the
tagged keys update their field and unknown keys are ignored. -/
def applyTxField (t : Transaction) : String × Json → Option Transaction
  | ("hash", j) => (jsonToStringWith t.hash j).map fun s => { t with hash := s }
  | ("from", j) => (jsonToStringWith t.fromAddr j).map fun s => { t with fromAddr := s }
  | ("to", j) => (jsonToStringWith t.toAddr j).map fun s => { t with toAddr := s }
  | ("value", j) => (jsonToStringWith t.value j).map fun s => { t with value := s }
  | _ => some t

/-- Go `json.Unmarshal` of one JSON value into a zero `Transaction`. -/
def unmarshalTransaction : Json → Option Transaction
  | .obj fields => fields.foldlM applyTxField zeroTransaction
  | .null => some zeroTransaction
  | _ => none

/-- `Block` (client.go:42-49); `number` and `timestamp` are the
`Uint64Hex` fields, decoded through `Uint64Hex.UnmarshalJSON`. -/
structure Block where
  number : Nat
  hash : String
  parentHash : String
  timestamp : Nat
  transactions : List Transaction
deriving DecidableEq

/-- The zero value of `var block Block` (client.go:143). -/
def zeroBlock : Block :=
  { number := 0, hash := "", parentHash := "", timestamp := 0,
    transactions := [] }

/-- One key of a block JSON object applied to the partially decoded
`Block`; the `Uint64Hex` fields go through `Uint64Hex.UnmarshalJSON`,
any failure of which aborts the whole decode. -/
def applyBlockField (b : Block) : String × Json → Option Block
  | ("number", j) => (uint64HexUnmarshalJSON j).map fun v => { b with number := v }
  | ("hash", j) => (jsonToStringWith b.hash j).map fun s => { b with hash := s }
  | ("parentHash", j) =>
    (jsonToStringWith b.parentHash j).map fun s => { b with parentHash := s }
  | ("timestamp", j) =>
    (uint64HexUnmarshalJSON j).map fun v => { b with timestamp := v }
  | ("transactions", j) =>
    match j with
    | .arr elems =>
      (elems.mapM unmarshalTransaction).map fun ts => { b with transactions := ts }
    | .null => some b
    | _ => none
  | _ => some b

/-- Go `json.Unmarshal` of the `result` raw message into the zero
`Block` of `GetBlockByNumber` (client.go:143-146); a JSON `null`
result succeeds and leaves the block at its zero value. -/
def unmarshalBlock : Json → Option Block
  | .obj fields => fields.foldlM applyBlockField zeroBlock
  | .null => some zeroBlock
  | _ => none

/-- The envelope stage of `rpcCall` (client.go:104-116), reached once
the HTTP status was accepted: a body that does not parse as an
envelope is a decode error; a populated `error` field is returned as a
JSON-RPC error; otherwise the raw `result` is unmarshaled into the
caller's container (an absent `result` is a nil raw message, whose
unmarshal fails with Go's "unexpected end of JSON input").  `Except`
models Go's write-into-`result`-pointer-on-success discipline. -/
def handleEnvelope {α : Type} (decodeRes : Json → Option α) :
    Option RpcEnvelope → Except ClientError α
  | none => .error (.decodeEnvelope "failed to decode JSON-RPC response")
  | some env =>
    match env.error with
    | some e => .error (.rpc e.code e.message)
    | none =>
      match env.result with
      | none => .error (.decodeResult "unexpected end of JSON input")
      | some raw =>
        match decodeRes raw with
        | none => .error (.decodeResult "failed to decode result")
        | some v => .ok v

/-- `Client.rpcCall` (client.go:75-118) from the network interaction
on: transport failures surface as errors, a status different from
`http.StatusOK` (200) fails with the status and raw body, and only
then is the body handled as a JSON-RPC envelope. -/
def rpcCall {α : Type} (decodeRes : Json → Option α) :
    NetworkResult → Except ClientError α
  | .netError msg => .error (.network msg)
  | .httpResponse status body envelope =>
    if status ≠ 200 then .error (.transport status body)
    else handleEnvelope decodeRes envelope

/-- `Client.GetBlockNumber` (client.go:121-136): the request it issues
paired with Go's `(uint64, error)` return.  Every error path returns
the zero value `0`. -/
def GetBlockNumber (net : NetworkResult) :
    RpcRequest × Nat × Option ClientError :=
  (buildRequest "eth_blockNumber" none,
    match rpcCall jsonToString net with
    | .error e => (0, some e)
    | .ok resultHex =>
      if hasPrefix0x resultHex then
        match parseUintHexList (hexSuffix resultHex) with
        | some num => (num, none)
        | none => (0, some (.parseFailure resultHex))
      else (0, some (.invalidFormat resultHex)))

/-- `Client.GetBlockByNumber` (client.go:139-152): the request it
issues paired with Go's `(*Block, error)` return.  Every error path
returns a nil block (`none`); a decoded block with an empty hash is
classified as not found. -/
def GetBlockByNumber (number : Nat) (net : NetworkResult) :
    RpcRequest × Option Block × Option ClientError :=
  (buildRequest "eth_getBlockByNumber"
      (some [Json.str (encodeHex number), Json.bool true]),
    match rpcCall unmarshalBlock net with
    | .error e => (none, some e)
    | .ok block =>
      if block.hash = "" then (none, some (.notFound number))
      else (some block, none))

/-- `c` is a lowercase hexadecimal digit character (`0-9` or `a-f`). -/
def isLowerHexChar (c : Char) : Bool :=
  ('0' ≤ c && c ≤ '9') || ('a' ≤ c && c ≤ 'f')


/-! ### Theorems -/

/-! ### Lemmas about the codec -/

theorem hexCharVal_hexDigitChar {d : Nat} (h : d < 16) :
    hexCharVal (hexDigitChar d) = some d := by
  interval_cases d <;> decide

theorem toHexDigits_ne_nil (n : Nat) : toHexDigits n ≠ [] := by
  rw [toHexDigits]
  split
  · simp
  · simp

theorem hexValueAux_append (l₁ l₂ : List Char) (acc : Nat) :
    hexValueAux acc (l₁ ++ l₂) = hexValueAux (hexValueAux acc l₁) l₂ := by
  induction l₁ generalizing acc with
  | nil => rfl
  | cons c cs ih => simp [hexValueAux, ih]

theorem hexValueAux_toHexDigits (n : Nat) :
    ∀ acc, hexValueAux acc (toHexDigits n) =
      acc * 16 ^ (toHexDigits n).length + n := by
  induction n using Nat.strongRecOn with
  | ind n ih =>
    intro acc
    rw [toHexDigits]
    split
    · next h =>
      simp [hexValueAux, hexCharVal_hexDigitChar h]
    · next h =>
      have hdiv : n / 16 < n := Nat.div_lt_self (by omega) (by omega)
      rw [hexValueAux_append, ih (n / 16) hdiv]
      simp only [hexValueAux, hexCharVal_hexDigitChar (Nat.mod_lt n (by omega)),
        Option.getD_some, List.length_append, List.length_singleton]
      rw [Nat.pow_succ]
      have := Nat.div_add_mod n 16
      ring_nf
      omega

theorem hexValue_toHexDigits (n : Nat) : hexValue (toHexDigits n) = n := by
  have := hexValueAux_toHexDigits n 0
  simpa [hexValue] using this

theorem toHexDigits_all_hex (n : Nat) :
    ∀ c ∈ toHexDigits n, (hexCharVal c).isSome := by
  induction n using Nat.strongRecOn with
  | ind n ih =>
    intro c hc
    rw [toHexDigits] at hc
    split at hc
    · next h =>
      simp at hc
      subst hc
      simp [hexCharVal_hexDigitChar h]
    · next h =>
      have hdiv : n / 16 < n := Nat.div_lt_self (by omega) (by omega)
      rcases List.mem_append.mp hc with h₁ | h₂
      · exact ih (n / 16) hdiv c h₁
      · simp at h₂
        subst h₂
        simp [hexCharVal_hexDigitChar (Nat.mod_lt n (by omega))]

theorem le_hexValueAux (l : List Char) : ∀ acc, acc ≤ hexValueAux acc l := by
  induction l with
  | nil => intro acc; exact Nat.le_refl acc
  | cons c cs ih =>
    intro acc
    calc acc ≤ acc * 16 + (hexCharVal c).getD 0 := by omega
    _ ≤ hexValueAux (acc * 16 + (hexCharVal c).getD 0) cs := ih _

theorem parseHexAux_complete (l : List Char) :
    ∀ acc, (∀ c ∈ l, (hexCharVal c).isSome) →
      hexValueAux acc l < 2 ^ 64 →
      parseHexAux acc l = some (hexValueAux acc l) := by
  induction l with
  | nil => intro acc _ _; rfl
  | cons c cs ih =>
    intro acc hall hlt
    have hc : (hexCharVal c).isSome := hall c (by simp)
    obtain ⟨d, hd⟩ := Option.isSome_iff_exists.mp hc
    have hstep : hexValueAux acc (c :: cs)
        = hexValueAux (acc * 16 + d) cs := by
      simp [hexValueAux, hd]
    have hguard : acc * 16 + d < 2 ^ 64 := by
      have := le_hexValueAux cs (acc * 16 + d)
      rw [hstep] at hlt
      omega
    simp only [parseHexAux, hd, hguard, if_true]
    rw [hstep] at hlt ⊢
    exact ih (acc * 16 + d) (fun x hx => hall x (by simp [hx])) hlt

theorem parseHexAux_sound (l : List Char) :
    ∀ acc v, acc < 2 ^ 64 → parseHexAux acc l = some v →
      v = hexValueAux acc l ∧ v < 2 ^ 64 ∧
        ∀ c ∈ l, (hexCharVal c).isSome := by
  induction l with
  | nil =>
    intro acc v hacc hv
    simp [parseHexAux] at hv
    subst hv
    exact ⟨rfl, hacc, by simp⟩
  | cons c cs ih =>
    intro acc v hacc hv
    simp only [parseHexAux] at hv
    cases hd : hexCharVal c with
    | none => simp only [hd] at hv; exact absurd hv (by simp)
    | some d =>
      simp only [hd] at hv
      by_cases hguard : acc * 16 + d < 2 ^ 64
      · rw [if_pos hguard] at hv
        obtain ⟨h₁, h₂, h₃⟩ := ih (acc * 16 + d) v hguard hv
        refine ⟨?_, h₂, ?_⟩
        · simp [hexValueAux, hd, h₁]
        · intro x hx
          rcases List.mem_cons.mp hx with rfl | hx'
          · simp [hd]
          · exact h₃ x hx'
      · rw [if_neg hguard] at hv
        exact absurd hv (by simp)

theorem encodeHex_data (n : Nat) :
    (encodeHex n).data = '0' :: 'x' :: toHexDigits n := by
  simp [encodeHex, formatUintHex, String.data_append]

theorem hasPrefix0x_encodeHex (n : Nat) : hasPrefix0x (encodeHex n) = true := by
  simp [hasPrefix0x, encodeHex_data]

theorem hexSuffix_encodeHex (n : Nat) : hexSuffix (encodeHex n) = toHexDigits n := by
  simp [hexSuffix, encodeHex_data]

theorem parseUintHexList_toHexDigits {n : Nat} (h : n < 2 ^ 64) :
    parseUintHexList (toHexDigits n) = some n := by
  have hne := toHexDigits_ne_nil n
  have hval := hexValue_toHexDigits n
  have hcomplete := parseHexAux_complete (toHexDigits n) 0
    (toHexDigits_all_hex n) (by rw [← hexValue]; omega)
  rw [← hexValue] at hcomplete
  rw [hval] at hcomplete
  cases hl : toHexDigits n with
  | nil => exact absurd hl hne
  | cons c cs =>
    rw [hl] at hcomplete
    simpa [parseUintHexList] using hcomplete

/-- C1: For every `uint64` value `n`, the decoder of
`Uint64Hex.UnmarshalJSON` accepts the `"0x" + strconv.FormatUint(n, 16)`
encoding produced by `GetBlockByNumber` and returns `n` again:
`decode(encode(n)) = n`, and in particular the encoding is never
rejected. -/
theorem uint64HexDecode_encodeHex_roundtrip (n : Nat) (h : n < 2 ^ 64) :
    uint64HexDecode (encodeHex n) = some n := by
  rw [uint64HexDecode, hasPrefix0x_encodeHex, if_pos rfl, hexSuffix_encodeHex]
  exact parseUintHexList_toHexDigits h

/-- C1 witness: the round trip evaluated at the concrete input `255`. -/
theorem uint64HexDecode_encodeHex_roundtrip_witness :
    255 < 2 ^ 64 ∧ uint64HexDecode (encodeHex 255) = some 255 :=
  ⟨by decide, uint64HexDecode_encodeHex_roundtrip 255 (by decide)⟩

theorem parseUintHexList_isSome_iff (l : List Char) :
    (parseUintHexList l).isSome ↔
      isHexDigits l = true ∧ hexValue l < 2 ^ 64 := by
  cases l with
  | nil => simp [parseUintHexList, isHexDigits]
  | cons c cs =>
    constructor
    · intro hs
      obtain ⟨v, hv⟩ := Option.isSome_iff_exists.mp hs
      have hsound := parseHexAux_sound (c :: cs) 0 v (by positivity) hv
      obtain ⟨h₁, h₂, h₃⟩ := hsound
      refine ⟨?_, ?_⟩
      · simp only [isHexDigits, Bool.and_eq_true, List.all_eq_true]
        exact ⟨by simp, h₃⟩
      · rw [hexValue, ← h₁]; exact h₂
    · rintro ⟨hdig, hlt⟩
      simp only [isHexDigits, Bool.and_eq_true, List.all_eq_true] at hdig
      have := parseHexAux_complete (c :: cs) 0 (fun x hx => hdig.2 x hx)
        (by rw [← hexValue]; exact hlt)
      simp [parseUintHexList, this]

theorem uint64HexDecode_isSome_iff (s : String) :
    (uint64HexDecode s).isSome ↔
      hasPrefix0x s = true ∧ isHexDigits (hexSuffix s) = true ∧
        hexValue (hexSuffix s) < 2 ^ 64 := by
  rw [uint64HexDecode]
  cases hp : hasPrefix0x s with
  | false => simp
  | true => simp [parseUintHexList_isSome_iff]

/-- C2: The decoder of `Uint64Hex.UnmarshalJSON` fails exactly when the
input string does not start with the two-character prefix `"0x"`, or the
characters after the prefix are not a (nonempty) string of hexadecimal
digits, or the decoded magnitude exceeds `2 ^ 64 - 1`; in particular
`decode("0x0") = 0` and `decode("0x5") = 5` succeed without even-length
padding, while `decode("5")` and `decode("0xzz")` fail. -/
theorem uint64HexDecode_failure_characterization (s : String) :
    (uint64HexDecode s = none ↔
      (hasPrefix0x s = false ∨ isHexDigits (hexSuffix s) = false ∨
        2 ^ 64 ≤ hexValue (hexSuffix s)))
    ∧ uint64HexDecode "0x0" = some 0 ∧ uint64HexDecode "0x5" = some 5
    ∧ uint64HexDecode "5" = none ∧ uint64HexDecode "0xzz" = none := by
  refine ⟨?_, by decide, by decide, by decide, by decide⟩
  have hs := uint64HexDecode_isSome_iff s
  constructor
  · intro hnone
    rw [hnone] at hs
    simp only [Option.isSome_none, Bool.false_eq_true, false_iff] at hs
    by_contra hcon
    push_neg at hcon
    obtain ⟨h₁, h₂, h₃⟩ := hcon
    exact hs ⟨by simpa using h₁, by simpa using h₂, by omega⟩
  · intro hdisj
    cases hd : uint64HexDecode s with
    | none => rfl
    | some v =>
      rw [hd] at hs
      simp only [Option.isSome_some, true_iff] at hs
      obtain ⟨h₁, h₂, h₃⟩ := hs
      rcases hdisj with h | h | h
      · rw [h₁] at h; exact absurd h (by simp)
      · rw [h₂] at h; exact absurd h (by simp)
      · omega

/-! ### Claim theorems about the RPC client -/

/-- C3 counterexample: the HTTP status 201 is inside the 2xx range, yet
`rpcCall` fails with the transport error carrying the status and raw
body instead of proceeding to parse the (perfectly valid) envelope —
the code tests `resp.StatusCode != http.StatusOK`, not membership in
the 2xx range. -/
theorem rpcCall_status201_counterexample :
    rpcCall jsonToString
        (NetworkResult.httpResponse 201 "raw-body"
          (some { result := some (Json.str "0x5"), error := none, id := 1 }))
      = Except.error (ClientError.transport 201 "raw-body")
    ∧ 200 ≤ 201 ∧ 201 < 300
    ∧ handleEnvelope jsonToString
        (some { result := some (Json.str "0x5"), error := none, id := 1 })
      = Except.ok "0x5" :=
  ⟨rfl, by omega, by omega, rfl⟩

/-- C3 (amended): for every HTTP response, `rpcCall` fails with the
transport error carrying the status code and raw body exactly when the
status differs from 200 (`http.StatusOK`); only a status equal to 200
proceeds to parsing the body as a JSON-RPC envelope. -/
theorem rpcCall_transport_iff_status_ne_200 {α : Type}
    (decodeRes : Json → Option α) (status : Nat) (body : String)
    (envelope : Option RpcEnvelope) :
    rpcCall decodeRes (NetworkResult.httpResponse status body envelope)
      = if status = 200 then handleEnvelope decodeRes envelope
        else Except.error (ClientError.transport status body) := by
  by_cases h : status = 200 <;> simp [rpcCall, h]

/-- C4 counterexample: a response envelope in which both `result` and
`error` are populated is treated as a remote JSON-RPC error, not as a
decode/protocol violation: the parser checks `rpcResp.Error != nil`
first and never notices the simultaneous `result`. -/
theorem handleEnvelope_both_present_counterexample :
    handleEnvelope jsonToString
        (some { result := some (Json.str "0x5"),
                error := some { code := -32000, message := "boom" },
                id := 1 })
      = Except.error (ClientError.rpc (-32000) "boom")
    ∧ ClientError.isDecodeOrProtocol (ClientError.rpc (-32000) "boom") = false
    ∧ ClientError.isRemoteRpc (ClientError.rpc (-32000) "boom") = true :=
  ⟨rfl, rfl, rfl⟩

/-- C4 (amended): the envelope handling does not enforce the
exactly-one-of-`result`/`error` invariant.  A populated `error` field
short-circuits to a remote JSON-RPC error regardless of whether
`result` is also present; only when both fields are absent does the
call fail with a result-decode error (unmarshaling the nil raw
message), never with success. -/
theorem handleEnvelope_error_precedence {α : Type}
    (decodeRes : Json → Option α) (res : Option Json) (e : RpcErrorObj)
    (i j : Int) :
    handleEnvelope decodeRes (some { result := res, error := some e, id := i })
      = Except.error (ClientError.rpc e.code e.message)
    ∧ handleEnvelope decodeRes (some { result := none, error := none, id := j })
      = Except.error (ClientError.decodeResult "unexpected end of JSON input") :=
  ⟨rfl, rfl⟩

/-- C5: whenever the RPC stage of `GetBlockByNumber` succeeds but the
decoded block has an empty `hash`, the call does not succeed: it
returns no block and the not-found error, which is a classification
distinct from the transport, protocol/decode and remote-RPC errors. -/
theorem getBlockByNumber_empty_hash_notFound (number : Nat)
    (net : NetworkResult) (b : Block)
    (hcall : rpcCall unmarshalBlock net = Except.ok b)
    (hhash : b.hash = "") :
    (GetBlockByNumber number net).2
      = (none, some (ClientError.notFound number))
    ∧ ClientError.isNotFound (ClientError.notFound number) = true
    ∧ ClientError.isTransport (ClientError.notFound number) = false
    ∧ ClientError.isDecodeOrProtocol (ClientError.notFound number) = false
    ∧ ClientError.isRemoteRpc (ClientError.notFound number) = false := by
  refine ⟨?_, rfl, rfl, rfl, rfl⟩
  simp [GetBlockByNumber, hcall, hhash]

/-- C5 witness: a node that answers block request 7 with a JSON `null`
result (no RPC-level error) decodes to the zero block, whose hash is
empty, and the call is classified as not found. -/
theorem getBlockByNumber_empty_hash_notFound_witness :
    (GetBlockByNumber 7
        (NetworkResult.httpResponse 200 "raw-body"
          (some { result := some Json.null, error := none, id := 1 }))).2
      = (none, some (ClientError.notFound 7)) :=
  (getBlockByNumber_empty_hash_notFound 7
    (NetworkResult.httpResponse 200 "raw-body"
      (some { result := some Json.null, error := none, id := 1 }))
    zeroBlock rfl rfl).1

/-- C6: for every argument `number` and every network behaviour,
`GetBlockByNumber` issues the JSON-RPC method `"eth_getBlockByNumber"`
with the ordered parameter list `[encode(number), true]`, the first
parameter being the `"0x"`-prefixed hex encoding and the second the
boolean `true`. -/
theorem getBlockByNumber_request (number : Nat) (net : NetworkResult) :
    (GetBlockByNumber number net).1.method = "eth_getBlockByNumber"
    ∧ (GetBlockByNumber number net).1.params
        = some [Json.str (encodeHex number), Json.bool true]
    ∧ (GetBlockByNumber number net).1
        = buildRequest "eth_getBlockByNumber"
            (some [Json.str (encodeHex number), Json.bool true]) :=
  ⟨rfl, rfl, rfl⟩

/-- C7: `GetBlockNumber` issues `"eth_blockNumber"` with no
parameters; on a 200 response whose envelope carries a string result
`s` (and no error), the returned number is exactly what the hex codec
decodes from `s` and the call succeeds exactly when the codec accepts
`s` — the inline parsing agrees with `Uint64Hex`'s decoder; in
particular a `"0x5"` result yields `5` with no error. -/
theorem getBlockNumber_spec (net : NetworkResult) (s body : String)
    (i : Int) :
    (GetBlockNumber net).1.method = "eth_blockNumber"
    ∧ (GetBlockNumber net).1.params = none
    ∧ ((GetBlockNumber (NetworkResult.httpResponse 200 body
          (some { result := some (Json.str s), error := none, id := i }))).2.1
        = (uint64HexDecode s).getD 0
      ∧ ((GetBlockNumber (NetworkResult.httpResponse 200 body
            (some { result := some (Json.str s), error := none, id := i }))).2.2
            = none
          ↔ (uint64HexDecode s).isSome))
    ∧ (GetBlockNumber (NetworkResult.httpResponse 200 "raw-body"
          (some { result := some (Json.str "0x5"), error := none,
                  id := 1 }))).2
        = (5, none) := by
  refine ⟨rfl, rfl, ?_, by decide⟩
  have hcall : rpcCall jsonToString
      (NetworkResult.httpResponse 200 body
        (some { result := some (Json.str s), error := none, id := i }))
      = Except.ok s := rfl
  rw [uint64HexDecode]
  cases hp : hasPrefix0x s with
  | false => simp [GetBlockNumber, hcall, hp]
  | true =>
    cases hv : parseUintHexList (hexSuffix s) with
    | none => simp [GetBlockNumber, hcall, hp, hv]
    | some v => simp [GetBlockNumber, hcall, hp, hv]

/-- C9: neither operation ever yields a partial result: the block of
`GetBlockByNumber` is present exactly when the error is absent, and
whenever `GetBlockNumber` carries an error its numeric result is the
zero value — including when decoding the result shape fails. -/
theorem no_partial_results (number : Nat) (net : NetworkResult) :
    ((GetBlockByNumber number net).2.1.isSome
      ↔ (GetBlockByNumber number net).2.2 = none)
    ∧ ((GetBlockNumber net).2.2 = none ∨ (GetBlockNumber net).2.1 = 0) := by
  constructor
  · cases hr : rpcCall unmarshalBlock net with
    | error e => simp [GetBlockByNumber, hr]
    | ok b =>
      by_cases hb : b.hash = "" <;> simp [GetBlockByNumber, hr, hb]
  · cases hr : rpcCall jsonToString net with
    | error e => simp [GetBlockNumber, hr]
    | ok s =>
      cases hp : hasPrefix0x s with
      | false => simp [GetBlockNumber, hr, hp]
      | true =>
        cases hv : parseUintHexList (hexSuffix s) with
        | none => simp [GetBlockNumber, hr, hp, hv]
        | some v => simp [GetBlockNumber, hr, hp, hv]

/-- C10: `GetBlockByNumber` performs no check that the returned block
matches the request: whenever the RPC stage succeeds with a block
whose hash is nonempty, that block is returned unchanged, whatever its
`number` field. -/
theorem getBlockByNumber_no_request_check (number : Nat)
    (net : NetworkResult) (b : Block)
    (hcall : rpcCall unmarshalBlock net = Except.ok b)
    (hhash : b.hash ≠ "") :
    (GetBlockByNumber number net).2 = (some b, none) := by
  simp [GetBlockByNumber, hcall, hhash]

/-- C10 witness: requesting block 5 from a node that answers with a
block numbered 9 (nonempty hash) succeeds and returns the mismatching
block unchanged. -/
theorem getBlockByNumber_no_request_check_witness :
    (GetBlockByNumber 5
        (NetworkResult.httpResponse 200 "raw-body"
          (some { result := some (Json.obj
                    [("number", Json.str "0x9"), ("hash", Json.str "0xabc")]),
                  error := none, id := 1 }))).2
      = (some { number := 9, hash := "0xabc", parentHash := "",
                timestamp := 0, transactions := [] }, none)
    ∧ (9 : Nat) ≠ 5 := by
  refine ⟨?_, by omega⟩
  exact getBlockByNumber_no_request_check 5
    (NetworkResult.httpResponse 200 "raw-body"
      (some { result := some (Json.obj
                [("number", Json.str "0x9"), ("hash", Json.str "0xabc")]),
              error := none, id := 1 }))
    { number := 9, hash := "0xabc", parentHash := "",
      timestamp := 0, transactions := [] }
    rfl (by decide)

theorem hexDigitChar_lower {d : Nat} (h : d < 16) :
    isLowerHexChar (hexDigitChar d) = true := by
  interval_cases d <;> decide

theorem toHexDigits_all_lower (n : Nat) :
    (toHexDigits n).all isLowerHexChar = true := by
  induction n using Nat.strongRecOn with
  | ind n ih =>
    rw [toHexDigits]
    split
    · next h => simp [hexDigitChar_lower h]
    · next h =>
      have hdiv : n / 16 < n := Nat.div_lt_self (by omega) (by omega)
      rw [List.all_append]
      simp [ih (n / 16) hdiv, hexDigitChar_lower (Nat.mod_lt n (by omega))]

theorem toHexDigits_zero : toHexDigits 0 = ['0'] := by
  rw [toHexDigits]
  decide

theorem toHexDigits_head_ne_zero :
    ∀ n : Nat, n ≠ 0 → (toHexDigits n).head? ≠ some '0' := by
  intro n
  induction n using Nat.strongRecOn with
  | ind n ih =>
    intro hne
    rw [toHexDigits]
    split
    · next hlt =>
      simp only [List.head?_cons, ne_eq, Option.some.injEq]
      interval_cases n
      · exact absurd rfl hne
      all_goals decide
    · next hlt =>
      have hdiv : n / 16 < n := Nat.div_lt_self (by omega) (by omega)
      have hne' : n / 16 ≠ 0 := by omega
      have hhead := ih (n / 16) hdiv hne'
      cases hl : toHexDigits (n / 16) with
      | nil => exact absurd hl (toHexDigits_ne_nil _)
      | cons a as =>
        rw [hl] at hhead
        simpa using hhead

/-- C8: for every `uint64` value `n`, the encoder produces `"0x"`
followed by the minimal lowercase hexadecimal representation of `n`:
the string is `'0' :: 'x' ::` the digit list of `n`, that digit list
denotes exactly `n`, all its characters are lowercase hex digits, it
has no leading zero digit (except the single digit `'0'` for zero
itself), and `encode(0) = "0x0"`. -/
theorem encodeHex_canonical (n : Nat) :
    (encodeHex n).data = '0' :: 'x' :: toHexDigits n
    ∧ hexValue (toHexDigits n) = n
    ∧ (toHexDigits n).all isLowerHexChar = true
    ∧ ((n = 0 ∧ toHexDigits n = ['0'])
        ∨ (toHexDigits n).head? ≠ some '0')
    ∧ encodeHex 0 = "0x0" := by
  refine ⟨encodeHex_data n, hexValue_toHexDigits n,
    toHexDigits_all_lower n, ?_, ?_⟩
  · by_cases h : n = 0
    · subst h
      exact Or.inl ⟨rfl, toHexDigits_zero⟩
    · exact Or.inr (toHexDigits_head_ne_zero n h)
  · show "0x" ++ formatUintHex 0 = "0x0"
    rw [formatUintHex, toHexDigits_zero]
    decide
